import Mathlib

/-!
Shallow embedding of the `bump_migrations` tool (`src/main.rs`).

The tool works in a single migration directory: it scans the directory for
files named `<number>_<rest>`, sorts them by number, rewrites the dependency
reference inside the target file, and renames the target to its bumped name.
The filesystem is modelled as one directory: a flag for whether the directory
can be read, plus an association list from filename to file content.
Rust panics (`unwrap`, `expect`, out-of-range indexing) are modelled as an
explicit `Panic` error that propagates past the per-item error handling,
while `Result`-style errors are a separate constructor.
-/

/-- One migration file; mirrors `bump_migrations::bumper::Migration`
(`number: i32`, `name: String`).  Modelled from the spec: the struct itself
lives in `src/bumper.rs`, which is not part of the provided source; spec §3
gives `SequenceEntry: { id: integer, filename: string }` and `main.rs`
constructs it with fields `number` and `name`. -/
structure Migration where
  number : Int
  name : String
deriving DecidableEq, Repr, Inhabited

/-- The single migration directory: `dirOk` is whether `fs::read_dir`
succeeds, `files` maps filename to content in directory-iteration order. -/
structure Fs where
  dirOk : Bool
  files : List (String × String)
deriving DecidableEq, Repr, Inhabited

/-- Kinds of Rust panics the program can hit (`expect`/`unwrap`/indexing). -/
inductive Panic where
  /-- `fs::read_dir(path).expect("Could not find directory.")` on a missing directory. -/
  | dirMissing : Panic
  /-- `migration_name.split("_").nth(0).unwrap().parse::<i32>().unwrap()` on a non-numeric target. -/
  | parseNone : Panic
  /-- `migrations.last().unwrap()` on an empty vector. -/
  | emptyLast : Panic
  /-- `usize` subtraction underflow / `Vec` index out of bounds in the predecessor lookup. -/
  | indexBound : Panic
deriving DecidableEq, Repr

/-- Outcome kinds of `update_dependency`: the `Err(...)`/`?` returns, plus
propagated panics. -/
inductive UDErr where
  /-- `File::open(file_path)?` failed (target file absent). -/
  | openFail : UDErr
  /-- `"No last migration found."` -/
  | noLast : UDErr
  /-- `"Migration idx not found"` -/
  | idxNotFound : UDErr
  /-- `"Could not write to file"` -/
  | writeFail : UDErr
  /-- A Rust panic escaping `update_dependency`. -/
  | panicked : Panic → UDErr
deriving DecidableEq, Repr

deriving instance DecidableEq for Except

/-- Whether a `UDErr` is a propagated panic rather than an `Err(...)` return. -/
def UDErr.isPanicErr : UDErr → Bool
  | .panicked _ => true
  | _ => false

/-- Default `Migration` used only to state indexed-access conclusions. -/
def dMig : Migration := ⟨0, ""⟩

/-- `Ok` digit-string value: all chars are ASCII digits and there is at least one. -/
def parseDigits (cs : List Char) : Option Nat :=
  if cs = [] then none
  else if cs.all Char.isDigit then
    some (cs.foldl (fun a c => a * 10 + (c.toNat - 48)) 0)
  else none

/-- Rust `str::parse::<i32>()`: optional sign, then one or more digits,
value within the `i32` range. -/
def parseI32 (s : String) : Option Int :=
  match s.data with
  | '-' :: rest =>
    (parseDigits rest).bind fun v =>
      if (v : Int) ≤ 2 ^ 31 then some (-(v : Int)) else none
  | '+' :: rest =>
    (parseDigits rest).bind fun v =>
      if (v : Int) ≤ 2 ^ 31 - 1 then some (v : Int) else none
  | cs =>
    (parseDigits cs).bind fun v =>
      if (v : Int) ≤ 2 ^ 31 - 1 then some (v : Int) else none

/-- The characters before the first `_` (all of them when there is no `_`):
`split("_").nth(0).unwrap()`. -/
def headSegment : List Char → List Char
  | [] => []
  | c :: rest => if c = '_' then [] else c :: headSegment rest

/-- `file_name.split("_").nth(0).unwrap().parse::<i32>()`: the segment before
the first `_` (the whole name when there is no `_`), parsed as an `i32`. -/
def parseNum (s : String) : Option Int :=
  parseI32 ⟨headSegment s.data⟩

/-- Leftmost non-overlapping occurrence split for a non-empty pattern, the
decomposition underlying Rust `str::replace`/`str::split`. -/
def chSplitF (pat : List Char) : Nat → List Char → List (List Char)
  | _, [] => [[]]
  | 0, _ :: _ => [[]]
  | fuel + 1, c :: rest =>
    if pat ≠ [] ∧ pat.isPrefixOf (c :: rest) then
      [] :: chSplitF pat fuel (rest.drop (pat.length - 1))
    else
      match chSplitF pat fuel rest with
      | [] => [[c]]
      | p :: ps => (c :: p) :: ps

/-- The split, with enough fuel for the whole text. -/
def chSplitA (pat s : List Char) : List (List Char) :=
  chSplitF pat s.length s

/-- Rust `str::split` on a pattern, including the empty-pattern case
(which matches at every char boundary). -/
def chSplit (pat s : List Char) : List (List Char) :=
  if pat = [] then [] :: (s.map (fun c => [c]) ++ [[]])
  else chSplitA pat s

/-- Join pieces with a separator (`sep` between consecutive pieces). -/
def joinSep (sep : List Char) : List (List Char) → List Char
  | [] => []
  | [p] => p
  | p :: ps => p ++ sep ++ joinSep sep ps

/-- Rust `str::replace`: every leftmost non-overlapping occurrence of `pat`
is replaced by `rep`. -/
def chReplace (pat rep s : List Char) : List Char :=
  joinSep rep (chSplit pat s)

/-- `String` wrapper for `chReplace`; argument order follows
`s.replace(pat, rep)`. -/
def repl (s pat rep : String) : String :=
  ⟨chReplace pat.data rep.data s.data⟩

/-- `name.replace(".py", "")`: the stripped stem used in the dependency rewrite. -/
def stem (name : String) : String :=
  repl name ".py" ""

/-- Rust `i32` to `String` (`to_string`). -/
def intStr (n : Int) : String := toString n

/-- `fs.files.lookup`: `File::open` + `read_to_string` of one file. -/
def fsRead (fs : Fs) (name : String) : Option String :=
  fs.files.lookup name

/-- `File::create` + `write`: set the file's content, creating it if absent. -/
def fsWrite (fs : Fs) (name content : String) : Fs :=
  if (fs.files.lookup name).isSome then
    { fs with files := fs.files.map (fun p => if p.1 == name then (p.1, content) else p) }
  else
    { fs with files := fs.files ++ [(name, content)] }

/-- `fs::rename`: fails when the source is absent, otherwise moves the
content to the new name (overwriting a file already there). -/
def fsRename (fs : Fs) (old new : String) : Except Unit Fs :=
  match fs.files.lookup old with
  | none => .error ()
  | some c =>
    .ok { fs with
          files := (fs.files.filter (fun p => !(p.1 == old) && !(p.1 == new))) ++ [(new, c)] }

/-- `collect_migrations`: keep each directory entry whose segment before the
first `_` parses as an `i32`; non-conforming entries are skipped with a
printed notice. Requires the directory to be readable (`expect` panics
otherwise); the caller checks `dirOk` first. -/
def collect_migrations (fs : Fs) : List Migration :=
  fs.files.filterMap fun p => (parseNum p.1).map fun k => ⟨k, p.1⟩

instance : DecidableRel (fun a b : Migration => a.number ≤ b.number) :=
  fun a b => Int.decLe a.number b.number

/-- `migrations.sort_by(|a, b| a.number.cmp(&b.number))`: stable ascending
sort by migration number (any stable ascending sort computes the same list,
so insertion sort models Rust's stable `sort_by` exactly). -/
def sortMigrations (l : List Migration) : List Migration :=
  l.insertionSort (fun a b => a.number ≤ b.number)

/-- The predecessor-name computation of `update_dependency` (lines 70–76):
`if migrations[idx].number > migrations[idx-1].number { migrations[idx-1] }
else { migrations[idx-2] }`, with the `usize` underflow / out-of-range
indexing surfaced as an explicit panic. -/
def beforeName (migrations : List Migration) (idx : Nat) : Except UDErr String :=
  match migrations[idx]? with
  | none => .error (.panicked .indexBound)
  | some mi =>
    if idx < 1 then .error (.panicked .indexBound)
    else
      match migrations[idx - 1]? with
      | none => .error (.panicked .indexBound)
      | some m1 =>
        if m1.number < mi.number then .ok m1.name
        else if idx < 2 then .error (.panicked .indexBound)
        else
          match migrations[idx - 2]? with
          | none => .error (.panicked .indexBound)
          | some m2 => .ok m2.name

/-- `update_dependency(path, migrations, migration_to_bump)`: read the target
file, find the last entry and the target's index, pick the predecessor, and
overwrite the file with all occurrences of the predecessor's stripped stem
replaced by the last entry's stripped stem. The path prefix is the single
modelled directory. -/
def update_dependency (migrations : List Migration) (target : Migration) (fs : Fs) :
    Except UDErr Fs :=
  match fsRead fs target.name with
  | none => .error .openFail
  | some contents =>
    match migrations.getLast? with
    | none => .error .noLast
    | some lastMig =>
      match migrations.findIdx? (fun x => x.name == target.name) with
      | none => .error .idxNotFound
      | some idx =>
        match beforeName migrations idx with
        | .error e => .error e
        | .ok before =>
          .ok (fsWrite fs target.name
                (repl contents (stem before) (stem lastMig.name)))

/-- `update_name(path, name_before, name_after)`: thin wrapper over `fs::rename`. -/
def update_name (fs : Fs) (nameBefore nameAfter : String) : Except Unit Fs :=
  fsRename fs nameBefore nameAfter

/-- The bumped name (line 114–117):
`name.replace(&number.to_string(), &(last_number + 1).to_string())` —
every occurrence of the old id string becomes the new id string. -/
def bumpedName (name : String) (oldId newId : Int) : String :=
  repl name (intStr oldId) (intStr newId)

/-- Two's-complement `i32` wrap-around: the value of an `i32` addition in a
release build. All ids entering the program are parsed through `parseI32`
and hence lie in the `i32` range, so the one addition the program performs
(`last_number + 1`) is the only place wrapping can occur. A debug build
panics on that overflow instead; either way the sum `2147483647 + 1` is
never produced. -/
def wrapI32 (n : Int) : Int :=
  (n + 2 ^ 31) % 2 ^ 32 - 2 ^ 31

/-- `migrations.last().unwrap().number + 1` over the freshly scanned, sorted
sequence: the new `i32` id assigned to the bumped migration (`none` when
the scan is empty, in which case `unwrap` panics). The addition is `i32`
arithmetic, modelled with release-profile wrap-around semantics. -/
def newId (fs : Fs) : Option Int :=
  (sortMigrations (collect_migrations fs)).getLast?.map
    (fun m => wrapI32 (m.number + 1))

/-- `bump_migration(path, migration_name)`: scan, sort, parse the target's
own id, compute the bumped name, rewrite the dependency, and rename.
Returns the resulting filesystem together with the reported per-item
success flag; a panic aborts the whole process. -/
def bump_migration (fs : Fs) (migName : String) : Except Panic (Fs × Bool) :=
  match fs.dirOk with
  | false => .error .dirMissing
  | true =>
    match parseNum migName with
    | none => .error .parseNone
    | some n =>
      match newId fs with
      | none => .error .emptyLast
      | some k =>
        match update_dependency (sortMigrations (collect_migrations fs))
            ⟨n, migName⟩ fs with
        | .error (.panicked p) => .error p
        | .error _ => .ok (fs, false)
        | .ok fs' =>
          match update_name fs' migName (bumpedName migName n k) with
          | .ok fs'' => .ok (fs'', true)
          | .error _ => .ok (fs', false)

/-- `bump(path, migrations_to_bump)`: process each requested migration in
order; panics abort the batch, reported failures do not. The returned list
is the per-item success flag in request order. -/
def bump (fs : Fs) : List String → Except Panic (Fs × List Bool)
  | [] => .ok (fs, [])
  | m :: rest =>
    match bump_migration fs m with
    | .error p => .error p
    | .ok (fs', r) =>
      match bump fs' rest with
      | .error p => .error p
      | .ok (fs'', rs) => .ok (fs'', r :: rs)

/-! ## Properties of the splitting/replacement primitives -/

theorem chSplitF_ne_nil (pat : List Char) (fuel : Nat) (s : List Char) :
    chSplitF pat fuel s ≠ [] := by
  induction fuel, s using chSplitF.induct pat with
  | case1 t => simp [chSplitF]
  | case2 c rest => simp [chSplitF]
  | case3 fuel c rest h ih => rw [chSplitF]; simp [h]
  | case4 fuel c rest h hnil ih => rw [chSplitF]; simp only [if_neg h]; simp [hnil]
  | case5 fuel c rest h p ps heq ih => rw [chSplitF]; simp only [if_neg h]; simp [heq]

theorem joinSep_cons (sep x : List Char) (l : List (List Char)) (hl : l ≠ []) :
    joinSep sep (x :: l) = x ++ sep ++ joinSep sep l := by
  cases l with
  | nil => exact absurd rfl hl
  | cons p ps => rfl

theorem joinSep_cons_head (sep : List Char) (c : Char) (p : List Char)
    (ps : List (List Char)) :
    joinSep sep ((c :: p) :: ps) = c :: joinSep sep (p :: ps) := by
  cases ps with
  | nil => rfl
  | cons q qs => simp [joinSep]

theorem chSplitF_head_prefix (pat : List Char) (fuel : Nat) (s : List Char) :
    ∀ p ps, chSplitF pat fuel s = p :: ps → p <+: s := by
  induction fuel, s using chSplitF.induct pat with
  | case1 t =>
    intro p ps h
    rw [chSplitF] at h
    cases h
    exact List.nil_prefix
  | case2 c rest =>
    intro p ps h
    rw [chSplitF] at h
    cases h
    exact List.nil_prefix
  | case3 fuel c rest h ih =>
    intro p ps hh
    rw [chSplitF, if_pos h] at hh
    cases hh
    exact List.nil_prefix
  | case4 fuel c rest h hnil ih =>
    intro p ps hh
    rw [chSplitF, if_neg h, hnil] at hh
    cases hh
    exact ⟨rest, rfl⟩
  | case5 fuel c rest h p' ps' heq ih =>
    intro p ps hh
    rw [chSplitF, if_neg h, heq] at hh
    cases hh
    obtain ⟨t, ht⟩ := ih p' ps' heq
    exact ⟨t, by rw [List.cons_append, ht]⟩

/-- Re-joining the occurrence decomposition with the pattern itself gives the
input back: the split loses nothing. -/
theorem joinSep_chSplitF (pat : List Char) (hp : pat ≠ []) (fuel : Nat) (s : List Char)
    (hf : s.length ≤ fuel) : joinSep pat (chSplitF pat fuel s) = s := by
  induction fuel, s using chSplitF.induct pat with
  | case1 t => rw [chSplitF]; rfl
  | case2 c rest => simp at hf
  | case3 fuel c rest h ih =>
    rw [chSplitF, if_pos h]
    have hpre : pat <+: c :: rest := List.isPrefixOf_iff_prefix.mp h.2
    obtain ⟨t, ht⟩ := hpre
    have hl : pat.length - 1 + 1 = pat.length := by
      cases pat with
      | nil => exact absurd rfl hp
      | cons a l => simp
    have hdrop : List.drop (pat.length - 1) rest = t := by
      have hx : List.drop pat.length (c :: rest) = t := by
        rw [← ht, List.drop_left]
      rw [← hl, List.drop_succ_cons] at hx
      exact hx
    have hflen : (List.drop (pat.length - 1) rest).length ≤ fuel := by
      simp only [List.length_drop]
      simp only [List.length_cons] at hf
      omega
    rw [joinSep_cons pat [] _ (chSplitF_ne_nil _ _ _), ih hflen]
    rw [List.nil_append, hdrop, ht]
  | case4 fuel c rest h hnil ih =>
    exact absurd hnil (chSplitF_ne_nil pat fuel rest)
  | case5 fuel c rest h p' ps' heq ih =>
    have hflen : rest.length ≤ fuel := by
      simp only [List.length_cons] at hf
      omega
    rw [chSplitF, if_neg h, heq, joinSep_cons_head, ← heq, ih hflen]

/-- No piece of the occurrence decomposition contains the pattern: the
replacement touches every occurrence and nothing else. -/
theorem chSplitF_pieces (pat : List Char) (hp : pat ≠ []) (fuel : Nat) (s : List Char) :
    ∀ p ∈ chSplitF pat fuel s, ¬ pat <:+: p := by
  induction fuel, s using chSplitF.induct pat with
  | case1 t =>
    intro p hm
    rw [chSplitF] at hm
    rcases List.mem_singleton.mp hm with rfl
    intro hinf
    exact hp (List.infix_nil.mp hinf)
  | case2 c rest =>
    intro p hm
    rw [chSplitF] at hm
    rcases List.mem_singleton.mp hm with rfl
    intro hinf
    exact hp (List.infix_nil.mp hinf)
  | case3 fuel c rest h ih =>
    intro p hm
    rw [chSplitF, if_pos h] at hm
    rcases List.mem_cons.mp hm with rfl | hm
    · intro hinf; exact hp (List.infix_nil.mp hinf)
    · exact ih p hm
  | case4 fuel c rest h hnil ih =>
    exact absurd hnil (chSplitF_ne_nil pat fuel rest)
  | case5 fuel c rest h p' ps' heq ih =>
    intro p hm
    rw [chSplitF, if_neg h, heq] at hm
    rcases List.mem_cons.mp hm with rfl | hm
    · intro hinf
      rcases List.infix_cons_iff.mp hinf with hpre | hinf'
      · obtain ⟨t, ht⟩ := chSplitF_head_prefix pat fuel rest p' ps' heq
        have hcp : pat <+: c :: rest :=
          hpre.trans ⟨t, by rw [List.cons_append, ht]⟩
        exact h ⟨hp, List.isPrefixOf_iff_prefix.mpr hcp⟩
      · exact ih p' (heq ▸ List.mem_cons_self p' ps') hinf'
    · exact ih p (heq ▸ List.mem_cons_of_mem p' hm)

theorem chSplitF_of_no_occurrence (pat : List Char) (fuel : Nat) (s : List Char)
    (hf : s.length ≤ fuel) (hno : ¬ pat <:+: s) : chSplitF pat fuel s = [s] := by
  induction fuel, s using chSplitF.induct pat with
  | case1 t => rw [chSplitF]
  | case2 c rest => simp at hf
  | case3 fuel c rest h ih =>
    exact absurd (List.isPrefixOf_iff_prefix.mp h.2).isInfix hno
  | case4 fuel c rest h hnil ih =>
    exact absurd hnil (chSplitF_ne_nil pat fuel rest)
  | case5 fuel c rest h p' ps' heq ih =>
    have hflen : rest.length ≤ fuel := by
      simp only [List.length_cons] at hf
      omega
    have hr : chSplitF pat fuel rest = [rest] :=
      ih hflen (fun hinf => hno (List.infix_cons hinf))
    rw [hr] at heq
    cases heq
    rw [chSplitF, if_neg h, hr]

theorem joinSep_chSplitA (pat : List Char) (hp : pat ≠ []) (s : List Char) :
    joinSep pat (chSplitA pat s) = s :=
  joinSep_chSplitF pat hp s.length s (Nat.le_refl _)

theorem chSplitA_pieces (pat : List Char) (hp : pat ≠ []) (s : List Char) :
    ∀ p ∈ chSplitA pat s, ¬ pat <:+: p :=
  chSplitF_pieces pat hp s.length s

theorem chSplitA_of_no_occurrence (pat s : List Char)
    (hno : ¬ pat <:+: s) : chSplitA pat s = [s] :=
  chSplitF_of_no_occurrence pat s.length s (Nat.le_refl _) hno

theorem chSplit_of_ne (pat s : List Char) (hp : pat ≠ []) :
    chSplit pat s = chSplitA pat s := by
  rw [chSplit, if_neg hp]

/-- Replacing a pattern that does not occur in the text is the identity. -/
theorem chReplace_of_no_occurrence (pat rep s : List Char) (hp : pat ≠ [])
    (hno : ¬ pat <:+: s) : chReplace pat rep s = s := by
  rw [chReplace, chSplit_of_ne pat s hp, chSplitA_of_no_occurrence pat s hno]
  rfl

theorem repl_of_no_occurrence (s pat rep : String) (hp : pat.data ≠ [])
    (hno : ¬ pat.data <:+: s.data) : repl s pat rep = s := by
  rw [repl, chReplace_of_no_occurrence pat.data rep.data s.data hp hno]

/-! ## Properties of the filesystem model -/

theorem lookup_upsert_map (name c : String) :
    ∀ l : List (String × String), (l.lookup name).isSome →
      (l.map (fun p => if p.1 == name then (p.1, c) else p)).lookup name = some c := by
  intro l
  induction l with
  | nil => intro h; simp [List.lookup] at h
  | cons p ps ih =>
    obtain ⟨k, v⟩ := p
    intro h
    by_cases hp : k = name
    · subst hp
      simp [List.lookup_cons]
    · have hb : (k == name) = false := beq_eq_false_iff_ne.mpr hp
      have hb' : (name == k) = false := beq_eq_false_iff_ne.mpr (Ne.symm hp)
      rw [List.lookup_cons, hb'] at h
      simp only [List.map_cons, hb, Bool.false_eq_true, if_false]
      rw [List.lookup_cons, hb']
      exact ih h

theorem lookup_append_self (name c : String) :
    ∀ l : List (String × String), l.lookup name = none →
      (l ++ [(name, c)]).lookup name = some c := by
  intro l
  induction l with
  | nil => intro _; simp [List.lookup]
  | cons p ps ih =>
    obtain ⟨k, v⟩ := p
    intro h
    rw [List.lookup_cons] at h
    rcases hb : (name == k) with _ | _
    · rw [hb] at h
      rw [List.cons_append, List.lookup_cons, hb]
      exact ih h
    · rw [hb] at h
      simp at h

/-- After `fsWrite fs name c`, reading `name` yields `c`. -/
theorem fsRead_fsWrite_same (fs : Fs) (name c : String) :
    fsRead (fsWrite fs name c) name = some c := by
  rw [fsRead, fsWrite]
  by_cases h : (fs.files.lookup name).isSome
  · rw [if_pos h]
    exact lookup_upsert_map name c fs.files h
  · rw [if_neg h]
    exact lookup_append_self name c fs.files (Option.not_isSome_iff_eq_none.mp h)

/-! ## Properties of the sorted scan -/

theorem pairwise_getLast_max :
    ∀ l : List Migration, l.Pairwise (fun a b => a.number ≤ b.number) →
      ∀ m, l.getLast? = some m → ∀ x ∈ l, x.number ≤ m.number := by
  intro l
  induction l with
  | nil => intro _ m hm; simp at hm
  | cons a l ih =>
    intro hpw m hm x hx
    cases l with
    | nil =>
      simp only [List.getLast?_singleton, Option.some.injEq] at hm
      rcases List.mem_singleton.mp hx with rfl
      rw [hm]
    | cons b l' =>
      rw [List.getLast?_cons_cons] at hm
      rcases List.pairwise_cons.mp hpw with ⟨ha, hpw'⟩
      rcases List.mem_cons.mp hx with rfl | hx'
      · exact ha m (List.mem_of_getLast?_eq_some hm)
      · exact ih hpw' m hm x hx'

theorem sortMigrations_pairwise (l : List Migration) :
    (sortMigrations l).Pairwise (fun a b => a.number ≤ b.number) := by
  haveI : IsTotal Migration (fun a b => a.number ≤ b.number) :=
    ⟨fun a b => Int.le_total a.number b.number⟩
  haveI : IsTrans Migration (fun a b => a.number ≤ b.number) :=
    ⟨fun a b c h1 h2 => le_trans h1 h2⟩
  exact List.sorted_insertionSort _ l

theorem sortMigrations_perm (l : List Migration) : (sortMigrations l).Perm l :=
  List.perm_insertionSort _ l

theorem sortMigrations_mem (l : List Migration) (x : Migration) :
    x ∈ sortMigrations l ↔ x ∈ l :=
  (sortMigrations_perm l).mem_iff

theorem sortMigrations_ne_nil (l : List Migration) (h : l ≠ []) :
    sortMigrations l ≠ [] := by
  intro hs
  have hperm := sortMigrations_perm l
  rw [hs] at hperm
  exact h hperm.symm.eq_nil

/-! ## Evaluation lemmas for the rewriter -/

theorem getD_some (l : List Migration) (i : Nat) (h : i < l.length) :
    l[i]? = some (l.getD i dMig) := by
  rw [List.getElem?_eq_getElem h, List.getD_eq_getElem?_getD, List.getElem?_eq_getElem h]
  rfl

theorem beforeName_zero (migs : List Migration) (h0 : 0 < migs.length) :
    beforeName migs 0 = .error (.panicked .indexBound) := by
  rw [beforeName, getD_some migs 0 h0]
  simp

theorem beforeName_one (migs : List Migration) (h1 : 1 < migs.length) :
    beforeName migs 1 =
      if (migs.getD 0 dMig).number < (migs.getD 1 dMig).number
      then .ok (migs.getD 0 dMig).name
      else .error (.panicked .indexBound) := by
  have h0 : 0 < migs.length := by omega
  have e0 : migs[1 - 1]? = some (migs.getD 0 dMig) := getD_some migs 0 h0
  rw [beforeName, getD_some migs 1 h1, e0]
  have c1 : ¬ (1 : Nat) < 1 := by omega
  have c2 : (1 : Nat) < 2 := by omega
  simp only [c1, if_false, c2, if_true]

theorem beforeName_ge_two (migs : List Migration) (idx : Nat)
    (h2 : 2 ≤ idx) (hlen : idx < migs.length) :
    beforeName migs idx =
      .ok (if (migs.getD (idx - 1) dMig).number < (migs.getD idx dMig).number
           then (migs.getD (idx - 1) dMig).name
           else (migs.getD (idx - 2) dMig).name) := by
  have hm1 : idx - 1 < migs.length := by omega
  have hm2 : idx - 2 < migs.length := by omega
  rw [beforeName, getD_some migs idx hlen, getD_some migs (idx - 1) hm1,
      getD_some migs (idx - 2) hm2]
  have c1 : ¬ idx < 1 := by omega
  have c2 : ¬ idx < 2 := by omega
  simp only [c1, c2, if_false]
  split <;> rfl

theorem update_dependency_unfold (migs : List Migration) (target : Migration) (fs : Fs)
    (contents : String) (lastM : Migration) (idx : Nat)
    (hc : fsRead fs target.name = some contents)
    (hl : migs.getLast? = some lastM)
    (hi : migs.findIdx? (fun x => x.name == target.name) = some idx) :
    update_dependency migs target fs =
      match beforeName migs idx with
      | .error e => .error e
      | .ok before =>
        .ok (fsWrite fs target.name (repl contents (stem before) (stem lastM.name))) := by
  rw [update_dependency, hc, hl, hi]

/-! ## Claims -/

/-- C10: the dependency rewrite depends only on the target's filename, never
on the target's parsed numeric id: with the same directory and sequence,
targets sharing a filename but carrying different id numbers produce the
same result and the same file contents. -/
theorem C10_rewrite_ignores_target_number (migs : List Migration) (name : String)
    (a b : Int) (fs : Fs) :
    update_dependency migs ⟨a, name⟩ fs = update_dependency migs ⟨b, name⟩ fs := rfl

/-- C1: when the target sits at index `idx ≥ 2` of the sorted sequence, the
predecessor used for the text replacement is the entry at `idx-1` when the
id at `idx` is strictly greater than the id at `idx-1`, and otherwise the
entry at `idx-2`; the file is rewritten with that predecessor's stem. -/
theorem C1_predecessor_rule
    (migs : List Migration) (target : Migration) (fs : Fs)
    (contents : String) (lastM : Migration) (idx : Nat)
    (hsorted : migs.Pairwise (fun a b => a.number ≤ b.number))
    (hc : fsRead fs target.name = some contents)
    (hl : migs.getLast? = some lastM)
    (hi : migs.findIdx? (fun x => x.name == target.name) = some idx)
    (h2 : 2 ≤ idx) :
    update_dependency migs target fs =
      .ok (fsWrite fs target.name
        (repl contents
          (stem (if (migs.getD (idx - 1) dMig).number < (migs.getD idx dMig).number
                 then migs.getD (idx - 1) dMig
                 else migs.getD (idx - 2) dMig).name)
          (stem lastM.name))) := by
  have hlen : idx < migs.length := by
    obtain ⟨h, -⟩ := List.findIdx?_eq_some_iff_getElem.mp hi
    exact h
  rw [update_dependency_unfold migs target fs contents lastM idx hc hl hi,
      beforeName_ge_two migs idx h2 hlen, apply_ite Migration.name]

theorem C1_witness :
    ([⟨1,"1_a.py"⟩, ⟨2,"2_b.py"⟩, ⟨3,"3_c.py"⟩] : List Migration).Pairwise
        (fun a b => a.number ≤ b.number)
  ∧ fsRead ⟨true, [("3_c.py","deps 2_b x")]⟩ "3_c.py" = some "deps 2_b x"
  ∧ ([⟨1,"1_a.py"⟩, ⟨2,"2_b.py"⟩, ⟨3,"3_c.py"⟩] : List Migration).getLast?
      = some ⟨3,"3_c.py"⟩
  ∧ ([⟨1,"1_a.py"⟩, ⟨2,"2_b.py"⟩, ⟨3,"3_c.py"⟩] : List Migration).findIdx?
      (fun x => x.name == "3_c.py") = some 2
  ∧ update_dependency [⟨1,"1_a.py"⟩, ⟨2,"2_b.py"⟩, ⟨3,"3_c.py"⟩] ⟨3,"3_c.py"⟩
      ⟨true, [("3_c.py","deps 2_b x")]⟩ =
      .ok (fsWrite ⟨true, [("3_c.py","deps 2_b x")]⟩ "3_c.py"
        (repl "deps 2_b x"
          (stem (if (([⟨1,"1_a.py"⟩, ⟨2,"2_b.py"⟩, ⟨3,"3_c.py"⟩] : List Migration).getD 1 dMig).number
                    < (([⟨1,"1_a.py"⟩, ⟨2,"2_b.py"⟩, ⟨3,"3_c.py"⟩] : List Migration).getD 2 dMig).number
                 then ([⟨1,"1_a.py"⟩, ⟨2,"2_b.py"⟩, ⟨3,"3_c.py"⟩] : List Migration).getD 1 dMig
                 else ([⟨1,"1_a.py"⟩, ⟨2,"2_b.py"⟩, ⟨3,"3_c.py"⟩] : List Migration).getD 0 dMig).name)
          (stem "3_c.py"))) :=
  ⟨by decide, by decide, by decide, by decide,
   C1_predecessor_rule [⟨1,"1_a.py"⟩, ⟨2,"2_b.py"⟩, ⟨3,"3_c.py"⟩] ⟨3,"3_c.py"⟩
     ⟨true, [("3_c.py","deps 2_b x")]⟩ "deps 2_b x" ⟨3,"3_c.py"⟩ 2
     (by decide) (by decide) (by decide) (by decide) (by decide)⟩

/-- C2 counterexample: a sorted two-entry sequence whose bump target is the
second entry (index 1) with a strictly greater id: the predecessor
computation does not fail at all — the rewrite succeeds using entry 0 as the
predecessor — contradicting the claim that an index of 0 or 1 must produce
an explicit error. -/
theorem C2_counterexample :
    update_dependency [⟨1,"1_a.py"⟩, ⟨2,"2_b.py"⟩] ⟨2,"2_b.py"⟩
        ⟨true, [("1_a.py","x"), ("2_b.py","dep 1_a here")]⟩
      = .ok ⟨true, [("1_a.py","x"), ("2_b.py","dep 2_b here")]⟩ := by decide

/-- C2 (amended): at index 0 the predecessor computation hits the unchecked
`idx - 1` and panics with an index-out-of-bounds (a checked Rust panic, not
silent wraparound into a wrong predecessor); at index 1 it panics the same
way only when the id at index 1 is not strictly greater than the id at
index 0, and otherwise succeeds with entry 0 as the predecessor. -/
theorem C2_low_index_behavior
    (migs : List Migration) (target : Migration) (fs : Fs)
    (contents : String) (lastM : Migration) (idx : Nat)
    (hsorted : migs.Pairwise (fun a b => a.number ≤ b.number))
    (hc : fsRead fs target.name = some contents)
    (hl : migs.getLast? = some lastM)
    (hi : migs.findIdx? (fun x => x.name == target.name) = some idx)
    (hle : idx ≤ 1) :
    (idx = 0 → update_dependency migs target fs = .error (.panicked .indexBound))
  ∧ (idx = 1 →
      ((migs.getD 0 dMig).number < (migs.getD 1 dMig).number →
        update_dependency migs target fs =
          .ok (fsWrite fs target.name
            (repl contents (stem (migs.getD 0 dMig).name) (stem lastM.name))))
    ∧ (¬ (migs.getD 0 dMig).number < (migs.getD 1 dMig).number →
        update_dependency migs target fs = .error (.panicked .indexBound))) := by
  have hlen : idx < migs.length := by
    obtain ⟨h, -⟩ := List.findIdx?_eq_some_iff_getElem.mp hi
    exact h
  have hu := update_dependency_unfold migs target fs contents lastM idx hc hl hi
  constructor
  · intro h0
    subst h0
    rw [hu, beforeName_zero migs hlen]
  · intro h1
    subst h1
    rw [hu, beforeName_one migs hlen]
    constructor
    · intro hlt
      rw [if_pos hlt]
    · intro hlt
      rw [if_neg hlt]

theorem C2_witness :
    ([⟨1,"1_a.py"⟩, ⟨2,"2_b.py"⟩] : List Migration).Pairwise
        (fun a b => a.number ≤ b.number)
  ∧ fsRead ⟨true, [("1_a.py","x"), ("2_b.py","dep 1_a here")]⟩ "2_b.py"
      = some "dep 1_a here"
  ∧ ([⟨1,"1_a.py"⟩, ⟨2,"2_b.py"⟩] : List Migration).getLast? = some ⟨2,"2_b.py"⟩
  ∧ ([⟨1,"1_a.py"⟩, ⟨2,"2_b.py"⟩] : List Migration).findIdx?
      (fun x => x.name == "2_b.py") = some 1
  ∧ ((1 = 0 → update_dependency [⟨1,"1_a.py"⟩, ⟨2,"2_b.py"⟩] ⟨2,"2_b.py"⟩
        ⟨true, [("1_a.py","x"), ("2_b.py","dep 1_a here")]⟩
        = .error (.panicked .indexBound))
    ∧ (1 = 1 →
      ((([⟨1,"1_a.py"⟩, ⟨2,"2_b.py"⟩] : List Migration).getD 0 dMig).number
          < (([⟨1,"1_a.py"⟩, ⟨2,"2_b.py"⟩] : List Migration).getD 1 dMig).number →
        update_dependency [⟨1,"1_a.py"⟩, ⟨2,"2_b.py"⟩] ⟨2,"2_b.py"⟩
          ⟨true, [("1_a.py","x"), ("2_b.py","dep 1_a here")]⟩ =
          .ok (fsWrite ⟨true, [("1_a.py","x"), ("2_b.py","dep 1_a here")]⟩ "2_b.py"
            (repl "dep 1_a here"
              (stem (([⟨1,"1_a.py"⟩, ⟨2,"2_b.py"⟩] : List Migration).getD 0 dMig).name)
              (stem "2_b.py"))))
      ∧ (¬ (([⟨1,"1_a.py"⟩, ⟨2,"2_b.py"⟩] : List Migration).getD 0 dMig).number
            < (([⟨1,"1_a.py"⟩, ⟨2,"2_b.py"⟩] : List Migration).getD 1 dMig).number →
        update_dependency [⟨1,"1_a.py"⟩, ⟨2,"2_b.py"⟩] ⟨2,"2_b.py"⟩
          ⟨true, [("1_a.py","x"), ("2_b.py","dep 1_a here")]⟩
          = .error (.panicked .indexBound)))) :=
  ⟨by decide, by decide, by decide, by decide,
   C2_low_index_behavior [⟨1,"1_a.py"⟩, ⟨2,"2_b.py"⟩] ⟨2,"2_b.py"⟩
     ⟨true, [("1_a.py","x"), ("2_b.py","dep 1_a here")]⟩ "dep 1_a here" ⟨2,"2_b.py"⟩ 1
     (by decide) (by decide) (by decide) (by decide) (by decide)⟩

/-- C9: when the predecessor's stripped stem does not occur in the target
file's content, the rewrite still succeeds: the replacement is a no-op, the
file is overwritten with identical content, and no error is reported. -/
theorem C9_no_reference_is_silent_success
    (migs : List Migration) (target : Migration) (fs : Fs)
    (contents : String) (lastM : Migration) (idx : Nat) (before : String)
    (hc : fsRead fs target.name = some contents)
    (hl : migs.getLast? = some lastM)
    (hi : migs.findIdx? (fun x => x.name == target.name) = some idx)
    (hb : beforeName migs idx = .ok before)
    (hp : (stem before).data ≠ [])
    (hno : ¬ (stem before).data <:+: contents.data) :
    update_dependency migs target fs = .ok (fsWrite fs target.name contents)
  ∧ fsRead (fsWrite fs target.name contents) target.name = some contents := by
  have hu := update_dependency_unfold migs target fs contents lastM idx hc hl hi
  rw [hb] at hu
  have hval : update_dependency migs target fs =
      .ok (fsWrite fs target.name (repl contents (stem before) (stem lastM.name))) := hu
  constructor
  · rw [hval, repl_of_no_occurrence contents (stem before) (stem lastM.name) hp hno]
  · exact fsRead_fsWrite_same fs target.name contents

theorem C9_witness :
    fsRead ⟨true, [("3_c.py","nothing here")]⟩ "3_c.py" = some "nothing here"
  ∧ ([⟨1,"1_a.py"⟩, ⟨2,"2_b.py"⟩, ⟨3,"3_c.py"⟩] : List Migration).getLast?
      = some ⟨3,"3_c.py"⟩
  ∧ ([⟨1,"1_a.py"⟩, ⟨2,"2_b.py"⟩, ⟨3,"3_c.py"⟩] : List Migration).findIdx?
      (fun x => x.name == "3_c.py") = some 2
  ∧ beforeName [⟨1,"1_a.py"⟩, ⟨2,"2_b.py"⟩, ⟨3,"3_c.py"⟩] 2 = .ok "2_b.py"
  ∧ (stem "2_b.py").data ≠ []
  ∧ ¬ (stem "2_b.py").data <:+: ("nothing here" : String).data
  ∧ (update_dependency [⟨1,"1_a.py"⟩, ⟨2,"2_b.py"⟩, ⟨3,"3_c.py"⟩] ⟨3,"3_c.py"⟩
        ⟨true, [("3_c.py","nothing here")]⟩
      = .ok (fsWrite ⟨true, [("3_c.py","nothing here")]⟩ "3_c.py" "nothing here")
    ∧ fsRead (fsWrite ⟨true, [("3_c.py","nothing here")]⟩ "3_c.py" "nothing here")
        "3_c.py" = some "nothing here") :=
  ⟨by decide, by decide, by decide, by decide, by decide, by decide,
   C9_no_reference_is_silent_success
     [⟨1,"1_a.py"⟩, ⟨2,"2_b.py"⟩, ⟨3,"3_c.py"⟩] ⟨3,"3_c.py"⟩
     ⟨true, [("3_c.py","nothing here")]⟩ "nothing here" ⟨3,"3_c.py"⟩ 2 "2_b.py"
     (by decide) (by decide) (by decide) (by decide) (by decide) (by decide)⟩

/-- C5: the dependency rewrite overwrites the target file with the content
obtained by plain substring replacement of the predecessor's stripped stem
by the last entry's stripped stem; the replacement rewrites every
occurrence (the content decomposes along the occurrences of the old stem,
and the result is that decomposition re-joined with the new stem) and
changes nothing else (no piece of the decomposition contains the old stem). -/
theorem C5_rewrite_replaces_all_occurrences
    (migs : List Migration) (target : Migration) (fs : Fs)
    (contents : String) (lastM : Migration) (idx : Nat) (before : String)
    (hc : fsRead fs target.name = some contents)
    (hl : migs.getLast? = some lastM)
    (hi : migs.findIdx? (fun x => x.name == target.name) = some idx)
    (hb : beforeName migs idx = .ok before)
    (hp : (stem before).data ≠ []) :
    update_dependency migs target fs =
      .ok (fsWrite fs target.name (repl contents (stem before) (stem lastM.name)))
  ∧ joinSep (stem before).data (chSplit (stem before).data contents.data)
      = contents.data
  ∧ (repl contents (stem before) (stem lastM.name)).data
      = joinSep (stem lastM.name).data (chSplit (stem before).data contents.data)
  ∧ ∀ p ∈ chSplit (stem before).data contents.data,
      ¬ (stem before).data <:+: p := by
  have hu := update_dependency_unfold migs target fs contents lastM idx hc hl hi
  rw [hb] at hu
  refine ⟨hu, ?_, rfl, ?_⟩
  · rw [chSplit_of_ne _ _ hp]
    exact joinSep_chSplitA _ hp _
  · rw [chSplit_of_ne _ _ hp]
    exact chSplitA_pieces _ hp _

theorem C5_witness :
    fsRead ⟨true, [("3_c.py","dep 2_b and 2_b twice")]⟩ "3_c.py"
      = some "dep 2_b and 2_b twice"
  ∧ ([⟨1,"1_a.py"⟩, ⟨2,"2_b.py"⟩, ⟨3,"3_c.py"⟩] : List Migration).getLast?
      = some ⟨3,"3_c.py"⟩
  ∧ ([⟨1,"1_a.py"⟩, ⟨2,"2_b.py"⟩, ⟨3,"3_c.py"⟩] : List Migration).findIdx?
      (fun x => x.name == "3_c.py") = some 2
  ∧ beforeName [⟨1,"1_a.py"⟩, ⟨2,"2_b.py"⟩, ⟨3,"3_c.py"⟩] 2 = .ok "2_b.py"
  ∧ (stem "2_b.py").data ≠ []
  ∧ (update_dependency [⟨1,"1_a.py"⟩, ⟨2,"2_b.py"⟩, ⟨3,"3_c.py"⟩] ⟨3,"3_c.py"⟩
        ⟨true, [("3_c.py","dep 2_b and 2_b twice")]⟩
      = .ok (fsWrite ⟨true, [("3_c.py","dep 2_b and 2_b twice")]⟩ "3_c.py"
          (repl "dep 2_b and 2_b twice" (stem "2_b.py") (stem "3_c.py")))
    ∧ joinSep (stem "2_b.py").data
        (chSplit (stem "2_b.py").data ("dep 2_b and 2_b twice" : String).data)
        = ("dep 2_b and 2_b twice" : String).data
    ∧ (repl "dep 2_b and 2_b twice" (stem "2_b.py") (stem "3_c.py")).data
        = joinSep (stem "3_c.py").data
            (chSplit (stem "2_b.py").data ("dep 2_b and 2_b twice" : String).data)
    ∧ ∀ p ∈ chSplit (stem "2_b.py").data ("dep 2_b and 2_b twice" : String).data,
        ¬ (stem "2_b.py").data <:+: p) :=
  ⟨by decide, by decide, by decide, by decide, by decide,
   C5_rewrite_replaces_all_occurrences
     [⟨1,"1_a.py"⟩, ⟨2,"2_b.py"⟩, ⟨3,"3_c.py"⟩] ⟨3,"3_c.py"⟩
     ⟨true, [("3_c.py","dep 2_b and 2_b twice")]⟩ "dep 2_b and 2_b twice"
     ⟨3,"3_c.py"⟩ 2 "2_b.py"
     (by decide) (by decide) (by decide) (by decide) (by decide)⟩

/-- Modelled from the spec: replace only the **first** textual occurrence of
`pat` (leaving any later occurrence unchanged), as §4.4 step 5 of the spec
words the bumped-filename computation. Used only to compare the spec's
wording against the code's `str::replace`. -/
def chReplaceFirst (pat rep : List Char) : List Char → List Char
  | [] => []
  | c :: rest =>
    if pat ≠ [] ∧ pat.isPrefixOf (c :: rest) then
      rep ++ rest.drop (pat.length - 1)
    else c :: chReplaceFirst pat rep rest

/-- Modelled from the spec: `String` wrapper for `chReplaceFirst`. -/
def replFirst (s pat rep : String) : String :=
  ⟨chReplaceFirst pat.data rep.data s.data⟩

/-- C4 counterexample: bumping `2_add_2.py` (old id string `2`, new id 3).
The code's `replace` rewrites **both** occurrences of `2`, renaming to
`3_add_3.py`; replacing only the first occurrence would give `3_add_2.py`.
The claim that later occurrences are left unchanged is false. -/
theorem C4_counterexample :
    bump_migration ⟨true, [("1_a.py","x"), ("2_add_2.py","1_a")]⟩ "2_add_2.py"
      = .ok (⟨true, [("1_a.py","x"), ("3_add_3.py","2_add_2")]⟩, true)
  ∧ bumpedName "2_add_2.py" 2 3 = "3_add_3.py"
  ∧ replFirst "2_add_2.py" (intStr 2) (intStr 3) = "3_add_2.py"
  ∧ bumpedName "2_add_2.py" 2 3 ≠ replFirst "2_add_2.py" (intStr 2) (intStr 3) := by
  refine ⟨by decide, by decide, by decide, by decide⟩

/-- C4 (amended): the bumped filename replaces **every** occurrence of the
target's numeric id string with the new id's string form: the filename
decomposes along the occurrences of the old id string, the bumped name is
that decomposition re-joined with the new id string, and no piece of the
decomposition contains the old id string. -/
theorem C4_bumped_name_replaces_every_occurrence
    (name : String) (oldId newId : Int)
    (hp : (intStr oldId).data ≠ []) :
    joinSep (intStr oldId).data (chSplit (intStr oldId).data name.data) = name.data
  ∧ (bumpedName name oldId newId).data
      = joinSep (intStr newId).data (chSplit (intStr oldId).data name.data)
  ∧ ∀ p ∈ chSplit (intStr oldId).data name.data, ¬ (intStr oldId).data <:+: p := by
  refine ⟨?_, rfl, ?_⟩
  · rw [chSplit_of_ne _ _ hp]
    exact joinSep_chSplitA _ hp _
  · rw [chSplit_of_ne _ _ hp]
    exact chSplitA_pieces _ hp _

theorem C4_witness :
    (intStr 2).data ≠ []
  ∧ (joinSep (intStr 2).data (chSplit (intStr 2).data ("2_add_2.py" : String).data)
      = ("2_add_2.py" : String).data
    ∧ (bumpedName "2_add_2.py" 2 3).data
        = joinSep (intStr 3).data (chSplit (intStr 2).data ("2_add_2.py" : String).data)
    ∧ ∀ p ∈ chSplit (intStr 2).data ("2_add_2.py" : String).data,
        ¬ (intStr 2).data <:+: p) :=
  ⟨by decide, C4_bumped_name_replaces_every_occurrence "2_add_2.py" 2 3 (by decide)⟩

/-- C3 counterexample: with an existing but empty migration directory, the
batch does not reach the rewriter's NoLastMigrationError and does not report
a per-item failure and continue: `migrations.last().unwrap()` panics while
computing the new id, aborting the whole run (the second requested
migration is never processed). -/
theorem C3_counterexample :
    bump ⟨true, []⟩ ["1_a.py", "2_b.py"] = .error .emptyLast := by decide

/-- C3 (amended): an empty scan makes `bump_migration` panic with the
`last().unwrap()` of the new-id computation before the rewrite is ever
invoked, aborting the process instead of reporting a failure; the
NoLastMigrationError branch does exist in `update_dependency` but is only
reachable by calling the rewriter directly with an empty sequence. -/
theorem C3_empty_scan_panics (fs : Fs) (name : String) (n : Int)
    (hdir : fs.dirOk = true)
    (hn : parseNum name = some n)
    (hempty : collect_migrations fs = []) :
    bump_migration fs name = .error .emptyLast
  ∧ ∀ (target : Migration) (c : String) (fs₁ : Fs),
      fsRead fs₁ target.name = some c →
      update_dependency [] target fs₁ = .error .noLast := by
  constructor
  · have hid : newId fs = none := by
      rw [newId, hempty]
      rfl
    simp only [bump_migration]
    rw [hdir, hn, hid]
  · intro target c fs₁ h
    rw [update_dependency, h]
    rfl

theorem C3_witness :
    (⟨true, ([] : List (String × String))⟩ : Fs).dirOk = true
  ∧ parseNum "1_a.py" = some 1
  ∧ collect_migrations ⟨true, []⟩ = []
  ∧ (bump_migration ⟨true, []⟩ "1_a.py" = .error .emptyLast
    ∧ ∀ (target : Migration) (c : String) (fs₁ : Fs),
        fsRead fs₁ target.name = some c →
        update_dependency [] target fs₁ = .error .noLast) :=
  ⟨by decide, by decide, by decide,
   C3_empty_scan_panics ⟨true, []⟩ "1_a.py" 1 (by decide) (by decide) (by decide)⟩

theorem parseI32_range (s : String) (n : Int) (h : parseI32 s = some n) :
    -(2 ^ 31) ≤ n ∧ n ≤ 2 ^ 31 - 1 := by
  rw [parseI32] at h
  split at h <;>
    rcases hd : parseDigits _ with _ | v <;>
      rw [hd] at h <;> simp only [Option.none_bind, Option.some_bind] at h <;>
        try cases h
  all_goals split at h <;> cases h <;> rename_i hv <;> constructor <;> omega

theorem collect_migrations_range (fs : Fs) (m : Migration)
    (hm : m ∈ collect_migrations fs) :
    -(2 ^ 31) ≤ m.number ∧ m.number ≤ 2 ^ 31 - 1 := by
  rw [collect_migrations, List.mem_filterMap] at hm
  obtain ⟨p, -, hp⟩ := hm
  rcases hq : parseNum p.1 with _ | k
  · rw [hq] at hp
    cases hp
  · rw [hq, Option.map_some'] at hp
    cases hp
    exact parseI32_range _ k hq

theorem wrapI32_eq_self (k : Int) (hlo : -(2 ^ 31) ≤ k) (hhi : k ≤ 2 ^ 31 - 1) :
    wrapI32 k = k := by
  rw [wrapI32]
  omega

/-- C6 counterexample: a directory whose only migration carries the maximal
`i32` id `2147483647` (which `parseI32` admits, so the input is reachable).
The `i32` addition wraps: the new id is `-2147483648`, not
`max(existing ids) + 1 = 2147483648`. (A debug build panics on the same
addition; under neither profile is `max + 1` produced.) -/
theorem C6_counterexample :
    newId ⟨true, [("2147483647_a.py", "x")]⟩ = some (-2147483648)
  ∧ (-2147483648 : Int) ≠ 2147483647 + 1 :=
  ⟨by decide, by decide⟩

/-- C6 (amended): for a non-empty scan the new id is the two's-complement
`i32` wrap of the maximal scanned id plus one; it equals
`max(existing ids) + 1` exactly as claimed whenever the maximal id is below
the `i32` maximum `2147483647`, and wraps to `-2147483648` at that maximum
(a debug build panics there) rather than producing `max + 1`. -/
theorem C6_new_id_wraps_at_i32_max (fs : Fs)
    (h : collect_migrations fs ≠ []) :
    ∃ m ∈ collect_migrations fs,
      (∀ x ∈ collect_migrations fs, x.number ≤ m.number)
    ∧ newId fs = some (wrapI32 (m.number + 1))
    ∧ (m.number ≠ 2 ^ 31 - 1 → newId fs = some (m.number + 1)) := by
  have hs := sortMigrations_ne_nil _ h
  obtain ⟨m, hm⟩ := Option.isSome_iff_exists.mp (List.getLast?_isSome.mpr hs)
  have hmem : m ∈ collect_migrations fs :=
    (sortMigrations_mem _ m).mp (List.mem_of_getLast?_eq_some hm)
  have hval : newId fs = some (wrapI32 (m.number + 1)) := by
    rw [newId, hm]
    rfl
  refine ⟨m, hmem, ?_, hval, ?_⟩
  · intro x hx
    exact pairwise_getLast_max _ (sortMigrations_pairwise _) m hm x
      ((sortMigrations_mem _ x).mpr hx)
  · intro hne
    obtain ⟨hlo, hhi⟩ := collect_migrations_range fs m hmem
    rw [hval, wrapI32_eq_self (m.number + 1) (by omega) (by omega)]

theorem C6_witness :
    collect_migrations ⟨true, [("2_b.py","x"), ("1_a.py","y")]⟩ ≠ []
  ∧ ∃ m ∈ collect_migrations ⟨true, [("2_b.py","x"), ("1_a.py","y")]⟩,
      (∀ x ∈ collect_migrations ⟨true, [("2_b.py","x"), ("1_a.py","y")]⟩,
        x.number ≤ m.number)
    ∧ newId ⟨true, [("2_b.py","x"), ("1_a.py","y")]⟩ = some (wrapI32 (m.number + 1))
    ∧ (m.number ≠ 2 ^ 31 - 1 →
        newId ⟨true, [("2_b.py","x"), ("1_a.py","y")]⟩ = some (m.number + 1)) :=
  ⟨by decide,
   C6_new_id_wraps_at_i32_max ⟨true, [("2_b.py","x"), ("1_a.py","y")]⟩ (by decide)⟩

/-- C7: the rewrite gates the rename: a (non-panic) rewrite failure leaves
the filesystem untouched and reports the item as a failure without invoking
the rename, and overall success is reported exactly when the rewrite
succeeded and the rename of its result succeeded. -/
theorem C7_rewrite_gates_rename (fs : Fs) (migName : String) (n k : Int)
    (hdir : fs.dirOk = true)
    (hn : parseNum migName = some n)
    (hk : newId fs = some k) :
    (∀ e, update_dependency (sortMigrations (collect_migrations fs)) ⟨n, migName⟩ fs
        = .error e → e.isPanicErr = false →
        bump_migration fs migName = .ok (fs, false))
  ∧ (∀ fs₂, bump_migration fs migName = .ok (fs₂, true) →
      ∃ fs', update_dependency (sortMigrations (collect_migrations fs)) ⟨n, migName⟩ fs
          = .ok fs'
        ∧ update_name fs' migName (bumpedName migName n k) = .ok fs₂) := by
  have hstep : bump_migration fs migName =
      match update_dependency (sortMigrations (collect_migrations fs)) ⟨n, migName⟩ fs with
      | .error (.panicked p) => .error p
      | .error _ => .ok (fs, false)
      | .ok fs' =>
        match update_name fs' migName (bumpedName migName n k) with
        | .ok fs'' => .ok (fs'', true)
        | .error _ => .ok (fs', false) := by
    simp only [bump_migration]
    rw [hdir, hn, hk]
  constructor
  · intro e he hpe
    rw [hstep, he]
    cases e with
    | panicked p => simp [UDErr.isPanicErr] at hpe
    | openFail => rfl
    | noLast => rfl
    | idxNotFound => rfl
    | writeFail => rfl
  · intro fs₂ hok
    rw [hstep] at hok
    rcases hud : update_dependency (sortMigrations (collect_migrations fs))
        ⟨n, migName⟩ fs with e | fs'
    · rw [hud] at hok
      cases e with
      | panicked p => cases hok
      | openFail => cases hok
      | noLast => cases hok
      | idxNotFound => cases hok
      | writeFail => cases hok
    · rw [hud] at hok
      have hok2 : (match update_name fs' migName (bumpedName migName n k) with
          | .ok fs'' => (Except.ok (fs'', true) : Except Panic (Fs × Bool))
          | .error _ => .ok (fs', false)) = .ok (fs₂, true) := hok
      rcases hun : update_name fs' migName (bumpedName migName n k) with u | fs''
      · rw [hun] at hok2
        have hok3 : (Except.ok (fs', false) : Except Panic (Fs × Bool))
            = .ok (fs₂, true) := hok2
        injection hok3 with h1
        injection h1 with h2 h3
        exact absurd h3 (by decide)
      · rw [hun] at hok2
        have hok3 : (Except.ok (fs'', true) : Except Panic (Fs × Bool))
            = .ok (fs₂, true) := hok2
        injection hok3 with h1
        injection h1 with h2 h3
        exact ⟨fs', rfl, by rw [hun, h2]⟩

/-- Witness directory for C7: three migrations, bumping the last one. On
this input the rewrite succeeds and the run reports success, so the
success-iff conjunct of the theorem fires at a reachable `.ok (_, true)`
run (checked by the auxiliary equation below the hypotheses). -/
theorem C7_witness :
    (⟨true, [("1_a.py","x"), ("2_b.py","y"), ("3_c.py","dep 2_b")]⟩ : Fs).dirOk = true
  ∧ parseNum "3_c.py" = some 3
  ∧ newId ⟨true, [("1_a.py","x"), ("2_b.py","y"), ("3_c.py","dep 2_b")]⟩ = some 4
  ∧ bump_migration ⟨true, [("1_a.py","x"), ("2_b.py","y"), ("3_c.py","dep 2_b")]⟩ "3_c.py"
      = .ok (⟨true, [("1_a.py","x"), ("2_b.py","y"), ("4_c.py","dep 3_c")]⟩, true)
  ∧ ((∀ e, update_dependency
        (sortMigrations (collect_migrations
          ⟨true, [("1_a.py","x"), ("2_b.py","y"), ("3_c.py","dep 2_b")]⟩)) ⟨3, "3_c.py"⟩
        ⟨true, [("1_a.py","x"), ("2_b.py","y"), ("3_c.py","dep 2_b")]⟩ = .error e →
        e.isPanicErr = false →
        bump_migration ⟨true, [("1_a.py","x"), ("2_b.py","y"), ("3_c.py","dep 2_b")]⟩ "3_c.py"
          = .ok (⟨true, [("1_a.py","x"), ("2_b.py","y"), ("3_c.py","dep 2_b")]⟩, false))
    ∧ (∀ fs₂, bump_migration
          ⟨true, [("1_a.py","x"), ("2_b.py","y"), ("3_c.py","dep 2_b")]⟩ "3_c.py"
          = .ok (fs₂, true) →
        ∃ fs', update_dependency
            (sortMigrations (collect_migrations
              ⟨true, [("1_a.py","x"), ("2_b.py","y"), ("3_c.py","dep 2_b")]⟩)) ⟨3, "3_c.py"⟩
            ⟨true, [("1_a.py","x"), ("2_b.py","y"), ("3_c.py","dep 2_b")]⟩ = .ok fs'
          ∧ update_name fs' "3_c.py" (bumpedName "3_c.py" 3 4) = .ok fs₂)) :=
  ⟨by decide, by decide, by decide, by decide,
   C7_rewrite_gates_rename
     ⟨true, [("1_a.py","x"), ("2_b.py","y"), ("3_c.py","dep 2_b")]⟩ "3_c.py" 3 4
     (by decide) (by decide) (by decide)⟩

/-- C8 counterexample: a missing directory on the first requested migration
aborts the entire batch with a panic (the whole `bump` run returns the
directory-missing panic and the second migration is never processed),
instead of reporting a per-item failure and moving to the next item. -/
theorem C8_counterexample :
    bump ⟨false, []⟩ ["1_a.py", "2_b.py"] = .error .dirMissing := by decide

/-- C8 (amended): per-item outcomes of `bump_migration` that are reported
(`.ok` with a success flag — which covers the `Result`-style failures such
as an unreadable target file, a target missing from the scan, or a rename
failure) let the batch continue with the next requested migration; but any
panic (missing directory, non-numeric target prefix, empty sequence,
predecessor index out of range) propagates and aborts the whole batch. -/
theorem C8_batch_continuation (fs : Fs) (m : String) (rest : List String) :
    (fs.dirOk = false → bump fs (m :: rest) = .error .dirMissing)
  ∧ (∀ p, bump_migration fs m = .error p → bump fs (m :: rest) = .error p)
  ∧ (∀ fs' r fs'' rs, bump_migration fs m = .ok (fs', r) →
      bump fs' rest = .ok (fs'', rs) →
      bump fs (m :: rest) = .ok (fs'', r :: rs)) := by
  refine ⟨?_, ?_, ?_⟩
  · intro hdir
    have hm : bump_migration fs m = .error .dirMissing := by
      simp only [bump_migration]
      rw [hdir]
    rw [bump, hm]
  · intro p hp
    rw [bump, hp]
  · intro fs' r fs'' rs h1 h2
    rw [bump, h1]
    have hg : (match bump fs' rest with
        | .error p => (Except.error p : Except Panic (Fs × List Bool))
        | .ok (fs'', rs) => .ok (fs'', r :: rs)) = .ok (fs'', r :: rs) := by
      rw [h2]
    exact hg
